import Mathlib

/-!
Shallow embedding of the kernel-NPEM LED backend (`src/lib/kernel_npem.c`).

The filesystem visible to this module is modelled as a partial map from
paths to the integer content of a `brightness` node: `some v` means the
node exists and holds `v`, `none` means `stat` fails on that path.
`buf_write` of the literal strings "0" / "1" is modelled as storing the
integers 0 / 1.  Machine `u32` values are modelled as `Nat` together with
`Nat.land` / `|||`; all masks involved fit in 10 bits, so no overflow
reduction is needed.  Functions that in C receive a `struct slot_property`
or `struct block_device` receive here the filesystem and the controller
sysfs path, which is all those structures contribute to the computation.
-/

namespace KernelNpem

/-- Modelled from the spec: the IBPI indicator-pattern enumeration
(`enum led_ibpi_pattern`, declared in `led/libled.h`, which is not under
`src/`).  The spec lists the patterns Normal, OneshotNormal, Degraded,
HotSpare, Rebuild, FailedArray, PredictedFailure, FailedDrive, Locate,
LocateOff and the sentinel Unknown, with Normal..LocateOff a contiguous
numeric command range and Unknown a sentinel outside that range. -/
inductive led_ibpi_pattern where
  | normal
  | oneshot_normal
  | degraded
  | hotspare
  | rebuild
  | failed_array
  | pfa
  | failed_drive
  | locate
  | locate_off
  | unknown
deriving DecidableEq

/-- Modelled from the spec: numeric codes of the enumeration, with
Normal..LocateOff contiguous (here 1..10) and the Unknown sentinel outside
the valid command range (here 0). -/
def ibpi_code : led_ibpi_pattern → Nat
  | .unknown => 0
  | .normal => 1
  | .oneshot_normal => 2
  | .degraded => 3
  | .hotspare => 4
  | .rebuild => 5
  | .failed_array => 6
  | .pfa => 7
  | .failed_drive => 8
  | .locate => 9
  | .locate_off => 10

/-- The status codes this module returns (`status_t`; the full enumeration
lives outside `src/`, only these two values are produced here). -/
inductive status_t where
  | STATUS_SUCCESS
  | STATUS_INVALID_STATE
deriving DecidableEq

def PCI_NPEM_OK_CAP : Nat := 0x004
def PCI_NPEM_LOCATE_CAP : Nat := 0x008
def PCI_NPEM_FAIL_CAP : Nat := 0x010
def PCI_NPEM_REBUILD_CAP : Nat := 0x020
def PCI_NPEM_PFA_CAP : Nat := 0x040
def PCI_NPEM_HOT_SPARE_CAP : Nat := 0x080
def PCI_NPEM_CRA_CAP : Nat := 0x100
def PCI_NPEM_FA_CAP : Nat := 0x200

/-- `struct ibpi2value` (declared outside `src/`): a pattern paired with a
capability bitmask. -/
structure ibpi2value where
  ibpi : led_ibpi_pattern
  value : Nat
deriving DecidableEq

/-- The ordered pattern-capability table `ibpi_to_npem_capability`. -/
def ibpi_to_npem_capability : List ibpi2value :=
  [⟨.normal, PCI_NPEM_OK_CAP⟩,
   ⟨.oneshot_normal, PCI_NPEM_OK_CAP⟩,
   ⟨.degraded, PCI_NPEM_CRA_CAP⟩,
   ⟨.hotspare, PCI_NPEM_HOT_SPARE_CAP⟩,
   ⟨.rebuild, PCI_NPEM_REBUILD_CAP⟩,
   ⟨.failed_array, PCI_NPEM_FA_CAP⟩,
   ⟨.pfa, PCI_NPEM_PFA_CAP⟩,
   ⟨.failed_drive, PCI_NPEM_FAIL_CAP⟩,
   ⟨.locate, PCI_NPEM_LOCATE_CAP⟩,
   ⟨.locate_off, PCI_NPEM_OK_CAP⟩,
   ⟨.unknown, 0⟩]

/-- `struct kernel_npem_led`: a capability bit paired with the sysfs LED
leaf name. -/
structure kernel_npem_led where
  bitmask : Nat
  sysfs_led_name : String
deriving DecidableEq

/-- The LED node descriptor table `kernel_npem_leds`. -/
def kernel_npem_leds : List kernel_npem_led :=
  [⟨PCI_NPEM_OK_CAP, "enclosure:ok"⟩,
   ⟨PCI_NPEM_LOCATE_CAP, "enclosure:locate"⟩,
   ⟨PCI_NPEM_FAIL_CAP, "enclosure:fail"⟩,
   ⟨PCI_NPEM_REBUILD_CAP, "enclosure:rebuild"⟩,
   ⟨PCI_NPEM_PFA_CAP, "enclosure:pfa"⟩,
   ⟨PCI_NPEM_HOT_SPARE_CAP, "enclosure:hotspare"⟩,
   ⟨PCI_NPEM_CRA_CAP, "enclosure:ica"⟩,
   ⟨PCI_NPEM_FA_CAP, "enclosure:ifa"⟩]

/-- The filesystem as this module observes it: `some v` iff the path
exists (stat succeeds) and its content reads as the integer `v`. -/
def Fs : Type := String → Option Nat

/-- glibc `basename`: the final path component. -/
def basename (s : String) : String :=
  (s.splitOn ("/")).getLastD s

/-- The `make_led_path` macro:
`<sysfs_path>/leds/<basename(sysfs_path)>:<leaf>/brightness`. -/
def make_led_path (sysfs_path : String) (sysfs_led_name : String) : String :=
  sysfs_path ++ ("/leds/") ++ basename sysfs_path ++ (":") ++ sysfs_led_name ++ ("/brightness")

/-- Modelled from the spec: `get_int` (in `utils.c`, not under `src/`)
reads an integer from a file, and any read failure or absence yields the
supplied default. -/
def get_int (fs : Fs) (defval : Nat) (path : String) : Nat :=
  (fs path).getD defval

/-- Loop body of `read_kernel_npem_register`: `reg |= get_int(...) ?
bitmask : 0` over the descriptor table (`|||` is associative and
commutative, so folding from the right equals the C left-accumulation). -/
def read_loop (fs : Fs) (sysfs_path : String) : List kernel_npem_led → Nat
  | [] => 0
  | e :: rest =>
      (if get_int fs 0 (make_led_path sysfs_path e.sysfs_led_name) ≠ 0 then e.bitmask else 0) |||
        read_loop fs sysfs_path rest

def read_kernel_npem_register (fs : Fs) (sysfs_path : String) : Nat :=
  read_loop fs sysfs_path kernel_npem_leds

/-- Loop of `write_kernel_npem_register`: for each descriptor, if `stat`
on its path succeeds, write "1" when `val & bitmask` is non-zero and "0"
otherwise; a path that fails `stat` is skipped. -/
def write_loop (fs : Fs) (sysfs_path : String) (val : Nat) : List kernel_npem_led → Fs
  | [] => fs
  | e :: rest =>
      write_loop
        (if (fs (make_led_path sysfs_path e.sysfs_led_name)).isSome then
          Function.update fs (make_led_path sysfs_path e.sysfs_led_name)
            (some (if val &&& e.bitmask ≠ 0 then 1 else 0))
        else fs)
        sysfs_path val rest

/-- `write_kernel_npem_register`: performs the per-node writes and always
returns 0. -/
def write_kernel_npem_register (fs : Fs) (sysfs_path : String) (val : Nat) : Fs × Int :=
  (write_loop fs sysfs_path val kernel_npem_leds, 0)

/-- Loop of `kernel_npem_supported_mask`: `supported |= bitmask` for every
descriptor whose path passes `stat`. -/
def supported_loop (fs : Fs) (sysfs_path : String) : List kernel_npem_led → Nat
  | [] => 0
  | e :: rest =>
      (if (fs (make_led_path sysfs_path e.sysfs_led_name)).isSome then e.bitmask else 0) |||
        supported_loop fs sysfs_path rest

def kernel_npem_supported_mask (fs : Fs) (sysfs_path : String) : Nat :=
  supported_loop fs sysfs_path kernel_npem_leds

/-- `is_kernel_npem_present`: `return kernel_npem_supported_mask(path) ? 1 : 0`. -/
def is_kernel_npem_present (fs : Fs) (path : String) : Int :=
  if kernel_npem_supported_mask fs path ≠ 0 then 1 else 0

/-- Modelled from the spec: `get_by_ibpi` (in `utils.c`, not under
`src/`) scans the ordered table and returns the first entry whose pattern
matches exactly; the terminal Unknown sentinel is the default when
nothing matches. -/
def get_by_ibpi (state : led_ibpi_pattern) : List ibpi2value → ibpi2value
  | [] => ⟨.unknown, 0⟩
  | e :: rest => if e.ibpi = state then e else get_by_ibpi state rest

/-- Modelled from the spec: `get_by_bits` (in `utils.c`, not under
`src/`) scans the ordered table and returns the first entry whose
capability bit is present in the given mask; the terminal Unknown
sentinel is the default when nothing matches. -/
def get_by_bits (bits : Nat) : List ibpi2value → ibpi2value
  | [] => ⟨.unknown, 0⟩
  | e :: rest => if e.value &&& bits ≠ 0 then e else get_by_bits bits rest

/-- `kernel_npem_get_state`: read the live register and translate it back
to a pattern through the table. -/
def kernel_npem_get_state (fs : Fs) (sysfs_path : String) : led_ibpi_pattern :=
  (get_by_bits (read_kernel_npem_register fs sysfs_path) ibpi_to_npem_capability).ibpi

/-- `kernel_npem_set_slot`: resolve the pattern, reject the Unknown
sentinel, apply the capability check with the OK carve-out, then write
the requested mask. -/
def kernel_npem_set_slot (fs : Fs) (sysfs_path : String) (state : led_ibpi_pattern) :
    status_t × Fs :=
  let ibpi2val := get_by_ibpi state ibpi_to_npem_capability
  if ibpi2val.ibpi = .unknown then
    (.STATUS_INVALID_STATE, fs)
  else
    let requested := ibpi2val.value
    let supported := kernel_npem_supported_mask fs sysfs_path
    if requested &&& supported = 0 ∧ requested ≠ PCI_NPEM_OK_CAP then
      (.STATUS_INVALID_STATE, fs)
    else
      (.STATUS_SUCCESS, (write_kernel_npem_register fs sysfs_path requested).1)

/-- `kernel_npem_write`: range-check the raw pattern value before
delegating to the slot setter. -/
def kernel_npem_write (fs : Fs) (sysfs_path : String) (ibpi : led_ibpi_pattern) :
    status_t × Fs :=
  if ibpi_code ibpi < ibpi_code .normal ∨ ibpi_code .locate_off < ibpi_code ibpi then
    (.STATUS_INVALID_STATE, fs)
  else
    kernel_npem_set_slot fs sysfs_path ibpi

end KernelNpem

namespace KernelNpem

/-! ### Bitwise helper lemmas -/

theorem or_eq_zero_iff {x y : Nat} : (x ||| y) = 0 ↔ x = 0 ∧ y = 0 := by
  constructor
  · intro h
    have hb : ∀ i, x.testBit i = false ∧ y.testBit i = false := by
      intro i
      have h2 : (x ||| y).testBit i = Nat.testBit 0 i := by rw [h]
      simpa [Nat.testBit_or] using h2
    constructor
    · exact Nat.eq_of_testBit_eq fun i => by simp [(hb i).1]
    · exact Nat.eq_of_testBit_eq fun i => by simp [(hb i).2]
  · rintro ⟨rfl, rfl⟩
    rfl

theorem land_or_distrib (a x y : Nat) :
    a &&& (x ||| y) = (a &&& x) ||| (a &&& y) := by
  apply Nat.eq_of_testBit_eq
  intro i
  simp [Nat.testBit_or, Nat.testBit_and, Bool.and_or_distrib_left]

/-! ### Path injectivity -/

theorem make_led_path_inj {r a b : String}
    (h : make_led_path r a = make_led_path r b) : a = b := by
  have h2 := congrArg String.data h
  simp only [make_led_path, String.data_append, List.append_assoc] at h2
  exact String.ext (List.append_cancel_right
    (List.append_cancel_left (List.append_cancel_left
      (List.append_cancel_left (List.append_cancel_left h2)))))

theorem make_led_path_ne {a b : String} (r : String) (h : a ≠ b) :
    make_led_path r a ≠ make_led_path r b :=
  fun hc => h (make_led_path_inj hc)

theorem leds_paths_pairwise (r : String) :
    kernel_npem_leds.Pairwise
      (fun e1 e2 => make_led_path r e1.sysfs_led_name ≠ make_led_path r e2.sysfs_led_name) := by
  have h : kernel_npem_leds.Pairwise
      (fun e1 e2 => e1.sysfs_led_name ≠ e2.sysfs_led_name) := by decide
  exact h.imp (fun hne => make_led_path_ne r hne)

/-! ### Write-loop lemmas -/

theorem write_loop_apply_ne (root : String) (val : Nat) :
    ∀ (l : List kernel_npem_led) (fs : Fs) (p : String),
      (∀ e ∈ l, make_led_path root e.sysfs_led_name ≠ p) →
      write_loop fs root val l p = fs p := by
  intro l
  induction l with
  | nil => intro fs p _; rfl
  | cons e rest ih =>
      intro fs p h
      have hq : make_led_path root e.sysfs_led_name ≠ p := h e (by simp)
      simp only [write_loop]
      rw [ih _ p (fun e2 he2 => h e2 (List.mem_cons_of_mem _ he2))]
      by_cases hs : (fs (make_led_path root e.sysfs_led_name)).isSome
      · simp [hs, Function.update_apply, Ne.symm hq]
      · simp [hs]

theorem write_loop_isSome (root : String) (val : Nat) :
    ∀ (l : List kernel_npem_led) (fs : Fs) (p : String),
      (write_loop fs root val l p).isSome = (fs p).isSome := by
  intro l
  induction l with
  | nil => intro fs p; rfl
  | cons e rest ih =>
      intro fs p
      simp only [write_loop]
      rw [ih]
      by_cases hs : (fs (make_led_path root e.sysfs_led_name)).isSome
      · by_cases hp : p = make_led_path root e.sysfs_led_name
        · subst hp; simp [hs, Function.update_same]
        · simp [hs, Function.update_apply, hp]
      · simp [hs]

theorem write_loop_apply_mem (root : String) (val : Nat) :
    ∀ (l : List kernel_npem_led) (fs : Fs) (e : kernel_npem_led), e ∈ l →
      l.Pairwise (fun e1 e2 =>
        make_led_path root e1.sysfs_led_name ≠ make_led_path root e2.sysfs_led_name) →
      write_loop fs root val l (make_led_path root e.sysfs_led_name) =
        if (fs (make_led_path root e.sysfs_led_name)).isSome then
          some (if val &&& e.bitmask ≠ 0 then 1 else 0)
        else fs (make_led_path root e.sysfs_led_name) := by
  intro l
  induction l with
  | nil => intro fs e hmem; exact absurd hmem (List.not_mem_nil e)
  | cons f rest ih =>
      intro fs e hmem hpw
      rcases List.mem_cons.mp hmem with heq | hmem2
      · subst heq
        simp only [write_loop]
        have hrest : ∀ e2 ∈ rest,
            make_led_path root e2.sysfs_led_name ≠ make_led_path root e.sysfs_led_name :=
          fun e2 h2 => Ne.symm ((List.pairwise_cons.mp hpw).1 e2 h2)
        rw [write_loop_apply_ne root val rest _ _ hrest]
        by_cases hs : (fs (make_led_path root e.sysfs_led_name)).isSome
        · simp [hs, Function.update_same]
        · simp [hs]
      · have hne : make_led_path root f.sysfs_led_name ≠ make_led_path root e.sysfs_led_name :=
          (List.pairwise_cons.mp hpw).1 e hmem2
        simp only [write_loop]
        rw [ih _ e hmem2 (List.pairwise_cons.mp hpw).2]
        have hfp : (if (fs (make_led_path root f.sysfs_led_name)).isSome then
              Function.update fs (make_led_path root f.sysfs_led_name)
                (some (if val &&& f.bitmask ≠ 0 then 1 else 0))
            else fs) (make_led_path root e.sysfs_led_name) =
            fs (make_led_path root e.sysfs_led_name) := by
          by_cases hs : (fs (make_led_path root f.sysfs_led_name)).isSome
          · simp [hs, Function.update_apply, Ne.symm hne]
          · simp [hs]
        rw [hfp]

/-! ### Supported-mask lemmas -/

theorem supported_loop_congr (root : String) :
    ∀ (l : List kernel_npem_led) (f g : Fs),
      (∀ e ∈ l, (f (make_led_path root e.sysfs_led_name)).isSome =
        (g (make_led_path root e.sysfs_led_name)).isSome) →
      supported_loop f root l = supported_loop g root l := by
  intro l
  induction l with
  | nil => intro f g _; rfl
  | cons e rest ih =>
      intro f g h
      simp only [supported_loop]
      rw [h e (by simp), ih _ _ (fun e2 he2 => h e2 (List.mem_cons_of_mem _ he2))]

theorem land_supported_loop (root : String) (b : Nat) :
    ∀ (l : List kernel_npem_led) (fs : Fs),
      b &&& supported_loop fs root l ≠ 0 →
      ∃ e ∈ l, (fs (make_led_path root e.sysfs_led_name)).isSome ∧ b &&& e.bitmask ≠ 0 := by
  intro l
  induction l with
  | nil => intro fs h; simp [supported_loop] at h
  | cons e rest ih =>
      intro fs h
      rw [supported_loop, land_or_distrib] at h
      have hsplit : b &&& (if (fs (make_led_path root e.sysfs_led_name)).isSome then
          e.bitmask else 0) ≠ 0 ∨ b &&& supported_loop fs root rest ≠ 0 := by
        by_contra hc
        push_neg at hc
        exact h (or_eq_zero_iff.mpr hc)
      rcases hsplit with h1 | h2
      · by_cases hs : (fs (make_led_path root e.sysfs_led_name)).isSome
        · exact ⟨e, by simp, hs, by simpa [hs] using h1⟩
        · simp [hs] at h1
      · obtain ⟨e2, he2, hp⟩ := ih fs h2
        exact ⟨e2, List.mem_cons_of_mem _ he2, hp⟩

theorem supported_loop_ne_zero (root : String) :
    ∀ (l : List kernel_npem_led) (fs : Fs),
      (∀ e ∈ l, e.bitmask ≠ 0) →
      (supported_loop fs root l ≠ 0 ↔
        ∃ e ∈ l, (fs (make_led_path root e.sysfs_led_name)).isSome) := by
  intro l
  induction l with
  | nil => intro fs _; simp [supported_loop]
  | cons e rest ih =>
      intro fs hb
      rw [supported_loop]
      constructor
      · intro h
        have hsplit : (if (fs (make_led_path root e.sysfs_led_name)).isSome then
            e.bitmask else 0) ≠ 0 ∨ supported_loop fs root rest ≠ 0 := by
          by_contra hc
          push_neg at hc
          exact h (or_eq_zero_iff.mpr hc)
        rcases hsplit with h1 | h2
        · by_cases hs : (fs (make_led_path root e.sysfs_led_name)).isSome
          · exact ⟨e, by simp, hs⟩
          · simp [hs] at h1
        · obtain ⟨e2, he2, hp⟩ := (ih fs (fun e2 he2 => hb e2 (List.mem_cons_of_mem _ he2))).mp h2
          exact ⟨e2, List.mem_cons_of_mem _ he2, hp⟩
      · rintro ⟨e2, he2, hp⟩
        intro hzero
        rw [or_eq_zero_iff] at hzero
        rcases List.mem_cons.mp he2 with heq | hmem2
        · subst heq
          rw [if_pos hp] at hzero
          exact hb e2 (by simp) hzero.1
        · exact (ih fs (fun e3 he3 => hb e3 (List.mem_cons_of_mem _ he3))).mpr
            ⟨e2, hmem2, hp⟩ hzero.2

end KernelNpem

namespace KernelNpem

/-! ### Single-bit arithmetic -/

theorem two_pow_and (k x : Nat) : 2 ^ k &&& x = 0 ∨ 2 ^ k &&& x = 2 ^ k := by
  by_cases h : x.testBit k
  · right
    apply Nat.eq_of_testBit_eq
    intro i
    by_cases hik : i = k
    · subst hik; simp [Nat.testBit_and, Nat.testBit_two_pow, h]
    · have hki : ¬k = i := fun hc => hik hc.symm
      simp [Nat.testBit_and, Nat.testBit_two_pow, hki]
  · left
    apply Nat.eq_of_testBit_eq
    intro i
    by_cases hik : i = k
    · subst hik; simp [Nat.testBit_and, h]
    · have hki : ¬k = i := fun hc => hik hc.symm
      simp [Nat.testBit_and, Nat.testBit_two_pow, hki]

theorem single_bit_and_of_ne_zero {b x : Nat} (hb : ∃ k, b = 2 ^ k)
    (h : b &&& x ≠ 0) : b &&& x = b := by
  obtain ⟨k, rfl⟩ := hb
  rcases two_pow_and k x with h0 | h1
  · exact absurd h0 h
  · exact h1

/-! ### Reading back a just-written register -/

theorem read_loop_write_loop (root : String) (val : Nat) :
    ∀ (l : List kernel_npem_led) (fs : Fs),
      l.Pairwise (fun e1 e2 =>
        make_led_path root e1.sysfs_led_name ≠ make_led_path root e2.sysfs_led_name) →
      (∀ e ∈ l, val &&& e.bitmask = 0 ∨ val &&& e.bitmask = e.bitmask) →
      read_loop (write_loop fs root val l) root l = val &&& supported_loop fs root l := by
  intro l
  induction l with
  | nil => intro fs _ _; simp [read_loop, write_loop, supported_loop]
  | cons e rest ih =>
      intro fs hpw hsub
      obtain ⟨hhead, hrest⟩ := List.pairwise_cons.mp hpw
      simp only [write_loop, read_loop, supported_loop]
      set q := make_led_path root e.sysfs_led_name with hq
      set fs1 := (if (fs q).isSome then
          Function.update fs q (some (if val &&& e.bitmask ≠ 0 then 1 else 0))
        else fs) with hfs1
      have hwq : write_loop fs1 root val rest q = fs1 q :=
        write_loop_apply_ne root val rest fs1 q (fun e2 h2 => Ne.symm (hhead e2 h2))
      have hsupp : supported_loop fs1 root rest = supported_loop fs root rest := by
        apply supported_loop_congr
        intro e2 he2
        have hne : q ≠ make_led_path root e2.sysfs_led_name := hhead e2 he2
        by_cases hs : (fs q).isSome
        · rw [hfs1]; simp [hs, Function.update_apply, Ne.symm hne]
        · rw [hfs1]; simp [hs]
      rw [ih fs1 hrest (fun e2 he2 => hsub e2 (List.mem_cons_of_mem _ he2)), hsupp,
        land_or_distrib]
      have hone : (if get_int (write_loop fs1 root val rest) 0 q ≠ 0 then e.bitmask else 0)
          = val &&& (if (fs q).isSome then e.bitmask else 0) := by
        by_cases hs : (fs q).isSome
        · have hfsq : fs1 q = some (if val &&& e.bitmask ≠ 0 then 1 else 0) := by
            rw [hfs1, if_pos hs, Function.update_same]
          by_cases hvz : val &&& e.bitmask = 0
          · simp [get_int, hwq, hfsq, hs, hvz]
          · have hbit : val &&& e.bitmask = e.bitmask := by
              rcases hsub e (by simp) with h0 | h1
              · exact absurd h0 hvz
              · exact h1
            have hvz2 : e.bitmask ≠ 0 := hbit ▸ hvz
            simp [get_int, hwq, hfsq, hs, hbit, hvz2]
        · have hnone : fs q = none := Option.not_isSome_iff_eq_none.mp hs
          have hfsq : fs1 q = none := by rw [hfs1, if_neg hs]; exact hnone
          simp [get_int, hwq, hfsq, hs]
      rw [hone]

end KernelNpem

namespace KernelNpem

/-! ### Pattern-capability table lemmas -/

theorem gbb_ok {bits : Nat} (h : PCI_NPEM_OK_CAP &&& bits ≠ 0) :
    get_by_bits bits ibpi_to_npem_capability = ⟨.normal, PCI_NPEM_OK_CAP⟩ := by
  simp [ibpi_to_npem_capability, get_by_bits, h]

theorem get_by_bits_first (bits : Nat) :
    ∀ l : List ibpi2value,
      (∃ l1 l2, l = l1 ++ get_by_bits bits l :: l2 ∧
        (get_by_bits bits l).value &&& bits ≠ 0 ∧
        ∀ e ∈ l1, e.value &&& bits = 0) ∨
      ((∀ e ∈ l, e.value &&& bits = 0) ∧ get_by_bits bits l = ⟨.unknown, 0⟩) := by
  intro l
  induction l with
  | nil => right; exact ⟨by simp, rfl⟩
  | cons e rest ih =>
      by_cases h : e.value &&& bits ≠ 0
      · left
        refine ⟨[], rest, ?_, ?_, by simp⟩
        · simp [get_by_bits, h]
        · simp [get_by_bits, h]
      · push_neg at h
        have hg : get_by_bits bits (e :: rest) = get_by_bits bits rest := by
          simp [get_by_bits, h]
        rcases ih with ⟨l1, l2, heq, hne, hall⟩ | ⟨hall, hs⟩
        · left
          refine ⟨e :: l1, l2, ?_, ?_, ?_⟩
          · rw [hg, List.cons_append, ← heq]
          · rw [hg]; exact hne
          · intro e2 he2
            rcases List.mem_cons.mp he2 with rfl | h2
            · exact h
            · exact hall e2 h2
        · right
          refine ⟨?_, by rw [hg]; exact hs⟩
          intro e2 he2
          rcases List.mem_cons.mp he2 with rfl | h2
          · exact h
          · exact hall e2 h2

/-- Any non-Normal pattern whose table entries all carry the OK bit can
never be produced by the bitmask lookup: the Normal entry comes first. -/
theorem gbb_not_ok_sharing (bits : Nat) (q : led_ibpi_pattern)
    (hq1 : q ≠ .normal) (hq2 : q ≠ .unknown)
    (hqv : ∀ e ∈ ibpi_to_npem_capability, e.ibpi = q → e.value = PCI_NPEM_OK_CAP) :
    (get_by_bits bits ibpi_to_npem_capability).ibpi ≠ q := by
  intro hr
  rcases get_by_bits_first bits ibpi_to_npem_capability with ⟨l1, l2, heq, hne, hall⟩ | ⟨_, hs⟩
  · generalize hgen : get_by_bits bits ibpi_to_npem_capability = r at heq hne hr
    have hrmem : r ∈ ibpi_to_npem_capability := by
      rw [heq]
      exact List.mem_append_right _ (List.mem_cons_self _ _)
    have hval : r.value = PCI_NPEM_OK_CAP := hqv _ hrmem hr
    rw [hval] at hne
    cases l1 with
    | nil =>
        simp only [ibpi_to_npem_capability, List.nil_append] at heq
        injection heq with h1 _
        rw [← h1] at hr
        exact hq1 hr.symm
    | cons x l1t =>
        simp only [ibpi_to_npem_capability, List.cons_append] at heq
        injection heq with h1 _
        have hx := hall x (List.mem_cons_self _ _)
        rw [← h1] at hx
        exact hne (by simpa using hx)
  · rw [hs] at hr
    exact hq2 hr.symm

theorem gbb_never (bits : Nat) :
    (get_by_bits bits ibpi_to_npem_capability).ibpi ≠ .oneshot_normal ∧
    (get_by_bits bits ibpi_to_npem_capability).ibpi ≠ .locate_off :=
  ⟨gbb_not_ok_sharing bits .oneshot_normal (by decide) (by decide) (by decide),
   gbb_not_ok_sharing bits .locate_off (by decide) (by decide) (by decide)⟩

/-! ### Miscellaneous operation lemmas -/

theorem read_loop_none (root : String) :
    ∀ (l : List kernel_npem_led) (fs : Fs),
      (∀ e ∈ l, fs (make_led_path root e.sysfs_led_name) = none) →
      read_loop fs root l = 0 := by
  intro l
  induction l with
  | nil => intro fs _; rfl
  | cons e rest ih =>
      intro fs h
      have h0 : fs (make_led_path root e.sysfs_led_name) = none := h e (by simp)
      simp [read_loop, get_int, h0,
        ih fs (fun e2 he2 => h e2 (List.mem_cons_of_mem _ he2))]

theorem supported_after_write (fs : Fs) (root : String) (val : Nat) :
    kernel_npem_supported_mask (write_loop fs root val kernel_npem_leds) root =
      kernel_npem_supported_mask fs root := by
  unfold kernel_npem_supported_mask
  apply supported_loop_congr
  intro e _
  exact write_loop_isSome root val kernel_npem_leds fs _

theorem write_loop_idem (fs : Fs) (root : String) (val : Nat) :
    write_loop (write_loop fs root val kernel_npem_leds) root val kernel_npem_leds =
      write_loop fs root val kernel_npem_leds := by
  funext p
  by_cases hp : ∃ e ∈ kernel_npem_leds, make_led_path root e.sysfs_led_name = p
  · obtain ⟨e, he, rfl⟩ := hp
    rw [write_loop_apply_mem root val kernel_npem_leds _ e he (leds_paths_pairwise root),
        write_loop_apply_mem root val kernel_npem_leds fs e he (leds_paths_pairwise root)]
    by_cases hs : (fs (make_led_path root e.sysfs_led_name)).isSome <;> simp [hs]
  · have hne : ∀ e ∈ kernel_npem_leds, make_led_path root e.sysfs_led_name ≠ p :=
      fun e he hc => hp ⟨e, he, hc⟩
    rw [write_loop_apply_ne root val _ _ _ hne, write_loop_apply_ne root val _ _ _ hne]

/-- Unfolding equation for `kernel_npem_set_slot`. -/
theorem set_slot_eq (fs : Fs) (root : String) (p : led_ibpi_pattern) :
    kernel_npem_set_slot fs root p =
      if (get_by_ibpi p ibpi_to_npem_capability).ibpi = .unknown then
        (.STATUS_INVALID_STATE, fs)
      else if (get_by_ibpi p ibpi_to_npem_capability).value &&&
            kernel_npem_supported_mask fs root = 0 ∧
          (get_by_ibpi p ibpi_to_npem_capability).value ≠ PCI_NPEM_OK_CAP then
        (.STATUS_INVALID_STATE, fs)
      else
        (.STATUS_SUCCESS,
          write_loop fs root (get_by_ibpi p ibpi_to_npem_capability).value kernel_npem_leds) :=
  rfl

end KernelNpem

namespace KernelNpem

/-! ### Claim C1 -/

/-- Setting a pattern that resolves to the OK bit always succeeds and
drives every existing node: the OK node (if present) to 1, all other
existing nodes to 0; missing nodes stay missing. -/
theorem set_ok_aux (fs : Fs) (root : String) (p : led_ibpi_pattern)
    (h1 : get_by_ibpi p ibpi_to_npem_capability = ⟨p, PCI_NPEM_OK_CAP⟩)
    (hpu : p ≠ .unknown) :
    (kernel_npem_set_slot fs root p).1 = .STATUS_SUCCESS ∧
    ∀ e ∈ kernel_npem_leds,
      ((fs (make_led_path root e.sysfs_led_name)).isSome →
        (kernel_npem_set_slot fs root p).2 (make_led_path root e.sysfs_led_name) =
          some (if e.bitmask = PCI_NPEM_OK_CAP then 1 else 0)) ∧
      (fs (make_led_path root e.sysfs_led_name) = none →
        (kernel_npem_set_slot fs root p).2 (make_led_path root e.sysfs_led_name) = none) := by
  have hss : kernel_npem_set_slot fs root p =
      (.STATUS_SUCCESS, write_loop fs root PCI_NPEM_OK_CAP kernel_npem_leds) := by
    rw [set_slot_eq]
    simp [h1, hpu]
  have hiff : ∀ e ∈ kernel_npem_leds,
      (if PCI_NPEM_OK_CAP &&& e.bitmask ≠ 0 then (1 : Nat) else 0) =
        (if e.bitmask = PCI_NPEM_OK_CAP then 1 else 0) := by decide
  refine ⟨by rw [hss], ?_⟩
  intro e he
  have hmem := write_loop_apply_mem root PCI_NPEM_OK_CAP kernel_npem_leds fs e he
    (leds_paths_pairwise root)
  constructor
  · intro hsome
    rw [hss]
    show write_loop fs root PCI_NPEM_OK_CAP kernel_npem_leds
      (make_led_path root e.sysfs_led_name) = _
    rw [hmem, if_pos hsome, hiff e he]
  · intro hnone
    rw [hss]
    show write_loop fs root PCI_NPEM_OK_CAP kernel_npem_leds
      (make_led_path root e.sysfs_led_name) = none
    rw [hmem]
    have hs : (fs (make_led_path root e.sysfs_led_name)).isSome = false := by
      rw [hnone]; rfl
    simp [hs, hnone]

/-- C1 (amended): Set-state with Normal or LocateOff returns success for
every supported mask, and afterwards every existing LED node other than
the `enclosure:ok` node holds 0, while the `enclosure:ok` node, if it
exists, holds 1; nodes whose path does not exist are left absent. -/
theorem C1_set_normal_all_off (fs : Fs) (root : String) (p : led_ibpi_pattern)
    (hp : p = .normal ∨ p = .locate_off) :
    (kernel_npem_set_slot fs root p).1 = .STATUS_SUCCESS ∧
    ∀ e ∈ kernel_npem_leds,
      ((fs (make_led_path root e.sysfs_led_name)).isSome →
        (kernel_npem_set_slot fs root p).2 (make_led_path root e.sysfs_led_name) =
          some (if e.bitmask = PCI_NPEM_OK_CAP then 1 else 0)) ∧
      (fs (make_led_path root e.sysfs_led_name) = none →
        (kernel_npem_set_slot fs root p).2 (make_led_path root e.sysfs_led_name) = none) := by
  rcases hp with rfl | rfl
  · exact set_ok_aux fs root .normal (by decide) (by decide)
  · exact set_ok_aux fs root .locate_off (by decide) (by decide)

/-- C1 counterexample: on an enclosure where every node exists (with value
0), Set-state(Normal) succeeds but leaves the existing `enclosure:ok` node
holding 1, not 0 — refuting "every existing LED node holds the value 0". -/
theorem C1_counterexample :
    (kernel_npem_set_slot (fun _ => some 0) ("r") .normal).1 = .STATUS_SUCCESS ∧
    ((fun _ => (some 0 : Option Nat)) (make_led_path ("r") ("enclosure:ok"))).isSome = true ∧
    (kernel_npem_set_slot (fun _ => some 0) ("r") .normal).2
      (make_led_path ("r") ("enclosure:ok")) = some 1 := by
  refine ⟨rfl, rfl, ?_⟩
  have h2 : write_loop (fun _ => some 0) ("r") PCI_NPEM_OK_CAP kernel_npem_leds
      (make_led_path ("r") ("enclosure:ok")) =
      if ((fun _ => (some 0 : Option Nat)) (make_led_path ("r") ("enclosure:ok"))).isSome then
        some (if PCI_NPEM_OK_CAP &&& PCI_NPEM_OK_CAP ≠ 0 then 1 else 0)
      else (fun _ => (some 0 : Option Nat)) (make_led_path ("r") ("enclosure:ok")) :=
    write_loop_apply_mem ("r") PCI_NPEM_OK_CAP kernel_npem_leds (fun _ => some 0)
      ⟨PCI_NPEM_OK_CAP, "enclosure:ok"⟩ (by decide) (leds_paths_pairwise ("r"))
  show write_loop (fun _ => some 0) ("r") PCI_NPEM_OK_CAP kernel_npem_leds
    (make_led_path ("r") ("enclosure:ok")) = some 1
  rw [h2]
  decide

/-- C1 witness: concrete instance of the amended claim. -/
theorem C1_witness :
    (kernel_npem_set_slot (fun _ => some 0) ("r") .locate_off).1 = .STATUS_SUCCESS ∧
    (kernel_npem_set_slot (fun _ => some 0) ("r") .locate_off).2
      (make_led_path ("r") ("enclosure:fail")) = some 0 := by
  have h := C1_set_normal_all_off (fun _ => some 0) ("r") .locate_off (Or.inr rfl)
  have h2 := (h.2 ⟨PCI_NPEM_FAIL_CAP, "enclosure:fail"⟩ (by decide)).1 rfl
  exact ⟨h.1, h2.trans (by decide)⟩

/-! ### Claim C2 -/

/-- Core of the set-then-get round trip for a single-bit request whose bit
is in the supported mask. -/
theorem set_get_aux (fs : Fs) (root : String) (p : led_ibpi_pattern) (b : Nat)
    (h1 : get_by_ibpi p ibpi_to_npem_capability = ⟨p, b⟩)
    (hpu : p ≠ .unknown)
    (hb : ∃ k, b = 2 ^ k)
    (hsub : ∀ e ∈ kernel_npem_leds, b &&& e.bitmask = 0 ∨ b &&& e.bitmask = e.bitmask)
    (hq : (get_by_ibpi (get_by_bits b ibpi_to_npem_capability).ibpi
        ibpi_to_npem_capability).value = b)
    (hsup : b &&& kernel_npem_supported_mask fs root ≠ 0) :
    (kernel_npem_set_slot fs root p).1 = .STATUS_SUCCESS ∧
    (get_by_ibpi (kernel_npem_get_state (kernel_npem_set_slot fs root p).2 root)
        ibpi_to_npem_capability).value =
      (get_by_ibpi p ibpi_to_npem_capability).value := by
  have hss : kernel_npem_set_slot fs root p =
      (.STATUS_SUCCESS, write_loop fs root b kernel_npem_leds) := by
    rw [set_slot_eq]
    simp [h1, hpu, hsup]
  refine ⟨by rw [hss], ?_⟩
  rw [hss, h1]
  show (get_by_ibpi (kernel_npem_get_state (write_loop fs root b kernel_npem_leds) root)
      ibpi_to_npem_capability).value = b
  unfold kernel_npem_get_state read_kernel_npem_register
  rw [read_loop_write_loop root b kernel_npem_leds fs (leds_paths_pairwise root) hsub]
  have hsup2 : b &&& supported_loop fs root kernel_npem_leds ≠ 0 := hsup
  rw [single_bit_and_of_ne_zero hb hsup2]
  exact hq

/-- C2: for every pattern in the valid command range whose capability bit
is in the supported mask, Set-state succeeds and a subsequent Get-state
returns a pattern whose capability bit in the table equals the bit of the
requested pattern. -/
theorem C2_set_then_get (fs : Fs) (root : String) (p : led_ibpi_pattern)
    (hrange : ibpi_code .normal ≤ ibpi_code p ∧ ibpi_code p ≤ ibpi_code .locate_off)
    (hsup : (get_by_ibpi p ibpi_to_npem_capability).value &&&
      kernel_npem_supported_mask fs root ≠ 0) :
    (kernel_npem_set_slot fs root p).1 = .STATUS_SUCCESS ∧
    (get_by_ibpi (kernel_npem_get_state (kernel_npem_set_slot fs root p).2 root)
        ibpi_to_npem_capability).value =
      (get_by_ibpi p ibpi_to_npem_capability).value := by
  cases p with
  | unknown => exact absurd hrange (by decide)
  | normal =>
      exact set_get_aux fs root _ PCI_NPEM_OK_CAP (by decide) (by decide)
        ⟨2, by decide⟩ (by decide) (by decide) hsup
  | oneshot_normal =>
      exact set_get_aux fs root _ PCI_NPEM_OK_CAP (by decide) (by decide)
        ⟨2, by decide⟩ (by decide) (by decide) hsup
  | degraded =>
      exact set_get_aux fs root _ PCI_NPEM_CRA_CAP (by decide) (by decide)
        ⟨8, by decide⟩ (by decide) (by decide) hsup
  | hotspare =>
      exact set_get_aux fs root _ PCI_NPEM_HOT_SPARE_CAP (by decide) (by decide)
        ⟨7, by decide⟩ (by decide) (by decide) hsup
  | rebuild =>
      exact set_get_aux fs root _ PCI_NPEM_REBUILD_CAP (by decide) (by decide)
        ⟨5, by decide⟩ (by decide) (by decide) hsup
  | failed_array =>
      exact set_get_aux fs root _ PCI_NPEM_FA_CAP (by decide) (by decide)
        ⟨9, by decide⟩ (by decide) (by decide) hsup
  | pfa =>
      exact set_get_aux fs root _ PCI_NPEM_PFA_CAP (by decide) (by decide)
        ⟨6, by decide⟩ (by decide) (by decide) hsup
  | failed_drive =>
      exact set_get_aux fs root _ PCI_NPEM_FAIL_CAP (by decide) (by decide)
        ⟨4, by decide⟩ (by decide) (by decide) hsup
  | locate =>
      exact set_get_aux fs root _ PCI_NPEM_LOCATE_CAP (by decide) (by decide)
        ⟨3, by decide⟩ (by decide) (by decide) hsup
  | locate_off =>
      exact set_get_aux fs root _ PCI_NPEM_OK_CAP (by decide) (by decide)
        ⟨2, by decide⟩ (by decide) (by decide) hsup

/-- C2 witness: concrete instance with every node present and the
FailedDrive pattern. -/
theorem C2_witness :
    (kernel_npem_set_slot (fun _ => some 0) ("r") .failed_drive).1 = .STATUS_SUCCESS ∧
    (get_by_ibpi (kernel_npem_get_state
        (kernel_npem_set_slot (fun _ => some 0) ("r") .failed_drive).2 ("r"))
        ibpi_to_npem_capability).value =
      (get_by_ibpi .failed_drive ibpi_to_npem_capability).value :=
  C2_set_then_get (fun _ => some 0) ("r") .failed_drive (by decide) (by decide)

end KernelNpem

namespace KernelNpem

/-! ### Claim C3 -/

/-- C3: a pattern with no table entry (the lookup resolves to the Unknown
sentinel), or whose capability bit is absent from the supported mask and
is not the OK bit, makes Set-state return STATUS_INVALID_STATE with the
filesystem unchanged. -/
theorem C3_unsupported_rejected (fs : Fs) (root : String) (p : led_ibpi_pattern)
    (h : (get_by_ibpi p ibpi_to_npem_capability).ibpi = .unknown ∨
      ((get_by_ibpi p ibpi_to_npem_capability).value &&&
          kernel_npem_supported_mask fs root = 0 ∧
        (get_by_ibpi p ibpi_to_npem_capability).value ≠ PCI_NPEM_OK_CAP)) :
    kernel_npem_set_slot fs root p = (.STATUS_INVALID_STATE, fs) := by
  rw [set_slot_eq]
  rcases h with h1 | h2
  · rw [if_pos h1]
  · by_cases hu : (get_by_ibpi p ibpi_to_npem_capability).ibpi = .unknown
    · rw [if_pos hu]
    · rw [if_neg hu, if_pos h2]

/-- C3 witness: Locate on an enclosure with no nodes at all. -/
theorem C3_witness :
    kernel_npem_set_slot (fun _ => none) ("r") .locate =
      (.STATUS_INVALID_STATE, fun _ => none) :=
  C3_unsupported_rejected (fun _ => none) ("r") .locate
    (Or.inr ⟨by decide, by decide⟩)

/-! ### Claim C4 -/

/-- C4: the register writer writes 1 to each existing node whose bit is
set in the target mask and 0 to each existing node whose bit is clear,
leaves missing nodes missing, and always returns 0. -/
theorem C4_register_writer (fs : Fs) (root : String) (val : Nat)
    (e : kernel_npem_led) (he : e ∈ kernel_npem_leds) :
    (write_kernel_npem_register fs root val).2 = 0 ∧
    ((fs (make_led_path root e.sysfs_led_name)).isSome →
      (write_kernel_npem_register fs root val).1 (make_led_path root e.sysfs_led_name) =
        some (if val &&& e.bitmask ≠ 0 then 1 else 0)) ∧
    (fs (make_led_path root e.sysfs_led_name) = none →
      (write_kernel_npem_register fs root val).1 (make_led_path root e.sysfs_led_name) =
        none) := by
  have hmem := write_loop_apply_mem root val kernel_npem_leds fs e he (leds_paths_pairwise root)
  refine ⟨rfl, ?_, ?_⟩
  · intro hsome
    show write_loop fs root val kernel_npem_leds (make_led_path root e.sysfs_led_name) = _
    rw [hmem, if_pos hsome]
  · intro hnone
    show write_loop fs root val kernel_npem_leds (make_led_path root e.sysfs_led_name) = none
    rw [hmem]
    have hs : (fs (make_led_path root e.sysfs_led_name)).isSome = false := by
      rw [hnone]; rfl
    simp [hs, hnone]

/-- C4 witness: concrete instance on the `enclosure:ok` node. -/
theorem C4_witness :
    (write_kernel_npem_register (fun _ => some 0) ("r") 4).2 = 0 ∧
    (write_kernel_npem_register (fun _ => some 0) ("r") 4).1
      (make_led_path ("r") ("enclosure:ok")) = some 1 := by
  have h := C4_register_writer (fun _ => some 0) ("r") 4
    ⟨PCI_NPEM_OK_CAP, "enclosure:ok"⟩ (by decide)
  exact ⟨h.1, (h.2.1 rfl).trans (by decide)⟩

/-! ### Claim C5 -/

/-- C5: the presence predicate returns 0 iff none of the 8 node paths
exists and 1 iff at least one exists, independently of node values. -/
theorem C5_presence (fs : Fs) (root : String) :
    (is_kernel_npem_present fs root = 0 ↔
      ∀ e ∈ kernel_npem_leds, fs (make_led_path root e.sysfs_led_name) = none) ∧
    (is_kernel_npem_present fs root = 1 ↔
      ∃ e ∈ kernel_npem_leds, (fs (make_led_path root e.sysfs_led_name)).isSome) := by
  have hnz := supported_loop_ne_zero root kernel_npem_leds fs (by decide)
  unfold is_kernel_npem_present kernel_npem_supported_mask
  by_cases h : supported_loop fs root kernel_npem_leds ≠ 0
  · rw [if_pos h]
    constructor
    · constructor
      · intro h10
        exact absurd h10 (by decide)
      · intro hall
        exfalso
        obtain ⟨e, he, hs⟩ := hnz.mp h
        rw [hall e he] at hs
        exact absurd hs (by simp)
    · exact ⟨fun _ => hnz.mp h, fun _ => rfl⟩
  · rw [if_neg h]
    push_neg at h
    constructor
    · constructor
      · intro _ e he
        have hne : ¬∃ e2 ∈ kernel_npem_leds,
            (fs (make_led_path root e2.sysfs_led_name)).isSome := fun hex => hnz.mpr hex h
        push_neg at hne
        have := hne e he
        simpa [Option.not_isSome_iff_eq_none] using this
      · intro _
        rfl
    · constructor
      · intro h01
        exact absurd h01 (by decide)
      · intro hex
        exact absurd h (hnz.mpr hex)

/-! ### Claim C6 -/

/-- C6: the bitmask lookup returns the first table entry whose bit is
present in the queried mask (with the Unknown sentinel when none is); in
particular a mask containing the OK bit resolves to Normal, so Get-state
on such a register yields Normal. -/
theorem C6_first_match (bits : Nat) :
    ((∃ l1 l2, ibpi_to_npem_capability = l1 ++ get_by_bits bits ibpi_to_npem_capability :: l2 ∧
        (get_by_bits bits ibpi_to_npem_capability).value &&& bits ≠ 0 ∧
        ∀ e ∈ l1, e.value &&& bits = 0) ∨
      ((∀ e ∈ ibpi_to_npem_capability, e.value &&& bits = 0) ∧
        get_by_bits bits ibpi_to_npem_capability = ⟨.unknown, 0⟩)) ∧
    (PCI_NPEM_OK_CAP &&& bits ≠ 0 →
      get_by_bits bits ibpi_to_npem_capability = ⟨.normal, PCI_NPEM_OK_CAP⟩) ∧
    (∀ fs root, PCI_NPEM_OK_CAP &&& read_kernel_npem_register fs root ≠ 0 →
      kernel_npem_get_state fs root = .normal) := by
  refine ⟨get_by_bits_first bits ibpi_to_npem_capability, fun h => gbb_ok h, ?_⟩
  intro fs root h
  unfold kernel_npem_get_state
  rw [gbb_ok h]

/-- C6 witness: the OK bit alone resolves to Normal. -/
theorem C6_witness :
    get_by_bits 4 ibpi_to_npem_capability = ⟨.normal, PCI_NPEM_OK_CAP⟩ :=
  (C6_first_match 4).2.1 (by decide)

/-! ### Claim C7 -/

/-- C7: when Set-state succeeds, running the same Set-state again returns
the same status and leaves the node values exactly as after the first
call. -/
theorem C7_idempotent (fs : Fs) (root : String) (p : led_ibpi_pattern)
    (h : (kernel_npem_set_slot fs root p).1 = .STATUS_SUCCESS) :
    kernel_npem_set_slot (kernel_npem_set_slot fs root p).2 root p =
      kernel_npem_set_slot fs root p := by
  by_cases hu : (get_by_ibpi p ibpi_to_npem_capability).ibpi = .unknown
  · rw [set_slot_eq, if_pos hu] at h
    simp at h
  · by_cases hc : (get_by_ibpi p ibpi_to_npem_capability).value &&&
        kernel_npem_supported_mask fs root = 0 ∧
        (get_by_ibpi p ibpi_to_npem_capability).value ≠ PCI_NPEM_OK_CAP
    · rw [set_slot_eq, if_neg hu, if_pos hc] at h
      simp at h
    · have hss : kernel_npem_set_slot fs root p = (.STATUS_SUCCESS,
          write_loop fs root (get_by_ibpi p ibpi_to_npem_capability).value
            kernel_npem_leds) := by
        rw [set_slot_eq, if_neg hu, if_neg hc]
      have hfs2 : (kernel_npem_set_slot fs root p).2 =
          write_loop fs root (get_by_ibpi p ibpi_to_npem_capability).value
            kernel_npem_leds := by
        rw [hss]
      have hsupp : kernel_npem_supported_mask
          (write_loop fs root (get_by_ibpi p ibpi_to_npem_capability).value
            kernel_npem_leds) root = kernel_npem_supported_mask fs root :=
        supported_after_write fs root _
      have hc2 : ¬((get_by_ibpi p ibpi_to_npem_capability).value &&&
          kernel_npem_supported_mask
            (write_loop fs root (get_by_ibpi p ibpi_to_npem_capability).value
              kernel_npem_leds) root = 0 ∧
          (get_by_ibpi p ibpi_to_npem_capability).value ≠ PCI_NPEM_OK_CAP) := by
        rw [hsupp]
        exact hc
      rw [hfs2, hss, set_slot_eq, if_neg hu, if_neg hc2, write_loop_idem]

/-- C7 witness: concrete instance with every node present. -/
theorem C7_witness :
    kernel_npem_set_slot
        (kernel_npem_set_slot (fun _ => some 0) ("r") .failed_drive).2 ("r") .failed_drive =
      kernel_npem_set_slot (fun _ => some 0) ("r") .failed_drive :=
  C7_idempotent (fun _ => some 0) ("r") .failed_drive (by decide)

/-! ### Claim C8 -/

/-- C8: Get-state on an enclosure with no LED node present reads an
all-zero register and returns the Unknown sentinel. -/
theorem C8_get_state_no_nodes (fs : Fs) (root : String)
    (h : ∀ e ∈ kernel_npem_leds, fs (make_led_path root e.sysfs_led_name) = none) :
    kernel_npem_get_state fs root = .unknown := by
  unfold kernel_npem_get_state read_kernel_npem_register
  rw [read_loop_none root kernel_npem_leds fs h]
  decide

/-- C8 witness: the empty filesystem. -/
theorem C8_witness : kernel_npem_get_state (fun _ => none) ("r") = .unknown :=
  C8_get_state_no_nodes (fun _ => none) ("r") (fun _ _ => rfl)

/-! ### Claim C9 -/

/-- C9: a pattern value outside the Normal..LocateOff command range makes
the raw write entry point return STATUS_INVALID_STATE with the filesystem
untouched. -/
theorem C9_range_check (fs : Fs) (root : String) (p : led_ibpi_pattern)
    (h : ibpi_code p < ibpi_code .normal ∨ ibpi_code .locate_off < ibpi_code p) :
    kernel_npem_write fs root p = (.STATUS_INVALID_STATE, fs) := by
  unfold kernel_npem_write
  rw [if_pos h]

/-- C9 witness: the Unknown sentinel is rejected. -/
theorem C9_witness :
    kernel_npem_write (fun _ => none) ("r") .unknown =
      (.STATUS_INVALID_STATE, fun _ => none) :=
  C9_range_check (fun _ => none) ("r") .unknown (by decide)

/-! ### Claim C10 -/

/-- C10: Get-state can never return OneshotNormal or LocateOff: both share
the OK bit with Normal, which precedes them in the table, so the
first-match lookup resolves the OK bit to Normal. -/
theorem C10_get_state_never_oneshot_or_locate_off (fs : Fs) (root : String) :
    kernel_npem_get_state fs root ≠ .oneshot_normal ∧
    kernel_npem_get_state fs root ≠ .locate_off := by
  unfold kernel_npem_get_state
  exact gbb_never (read_kernel_npem_register fs root)

end KernelNpem
